import Mathlib

/-!
A verification development for the qutebrowser command-line parser
(src/qutebrowser/commands/parser.py).  The parser is embedded shallowly:
strings are lists of characters, the command registry (objects.commands)
and the alias map are read-only lists passed to every call, and Python
exceptions are an explicit error type carried in Except.
-/

/-- Strings are modelled as lists of characters. -/
abbrev Str := List Char

/-- Whitespace characters of the model: the whitespace characters Python
string methods recognise that can occur on a command line. -/
def pyIsSpace (c : Char) : Bool :=
  c == ' ' || c == '\t' || c == '\n' || c == '\r'

/-- Python str.strip: remove leading and trailing whitespace. -/
def pyStrip (s : Str) : Str :=
  ((s.dropWhile pyIsSpace).reverse.dropWhile pyIsSpace).reverse

/-- Python text.endswith(' '): does the string end with a space character. -/
def endsWithSpace (s : Str) : Bool :=
  match s.getLast? with
  | some c => c == ' '
  | none => false

/-- Python text.partition(' '): split at the first space character into
(before, separator, after); the separator is empty if there is no space. -/
def partitionSpace : Str → Str × Str × Str
  | [] => ([], [], [])
  | c :: rest =>
    if c = ' ' then ([], [' '], rest)
    else
      let p := partitionSpace rest
      (c :: p.1, p.2.1, p.2.2)

/-- Maximal runs of whitespace and of non-whitespace characters, in order.
The accumulator holds the current run reversed. -/
def runsGo : Str → Str → List Str
  | [], [] => []
  | [], a :: as => [(a :: as).reverse]
  | c :: cs, [] => runsGo cs [c]
  | c :: cs, a :: as =>
    if pyIsSpace c == pyIsSpace a then runsGo cs (c :: a :: as)
    else (a :: as).reverse :: runsGo cs [c]

/-- Split a string into its maximal whitespace / non-whitespace runs. -/
def runs (s : Str) : List Str := runsGo s []

/-- Whether a run consists of whitespace (runs are never empty). -/
def runIsSpace : Str → Bool
  | [] => false
  | c :: _ => pyIsSpace c

/-- Separator-keeping tokens: each non-whitespace run is glued to the
whitespace run that follows it; a leading whitespace run stands alone.
Concatenating the tokens restores the input. -/
def keepPair : List Str → List Str
  | [] => []
  | [r] => [r]
  | r :: s :: rest =>
    if runIsSpace r then r :: keepPair (s :: rest)
    else (r ++ s) :: keepPair rest

/-- Separator-keeping tokens with a bound: at most m split points are used
and everything after them is one final verbatim token. -/
def keepPairB : Nat → List Str → List Str
  | _, [] => []
  | 0, L => [L.flatten]
  | _ + 1, [r] => [r]
  | m + 1, r :: s :: rest =>
    if runIsSpace r then r :: keepPairB m (s :: rest)
    else (r ++ s) :: keepPairB m rest

/-- Plain tokens with a bound: at most m whitespace runs act as split
points and everything after them is one final verbatim token. -/
def plainB : Nat → List Str → List Str
  | _, [] => []
  | 0, L => [L.flatten]
  | m + 1, r :: rest =>
    if runIsSpace r then plainB m rest
    else r :: plainB (m + 1) rest

/-- Modelled from the spec: the Raw Tokenizer simple_split of the external
qutebrowser.misc.split module (not under src/).  It splits a string into an
ordered sequence of whitespace-delimited tokens, supports a mode keeping
the separators attached to the tokens, and an optional bound after which
the remainder is joined into one final token preserving internal
whitespace.  Quote and escape handling is not specified by the spec and is
not modelled; no input considered here contains quotes. -/
def simple_split (s : Str) (keep : Bool) (maxsplit : Option Nat) : List Str :=
  match maxsplit, keep with
  | none, false => (runs s).filter (fun r => !(runIsSpace r))
  | none, true => keepPair (runs s)
  | some m, false => plainB m (runs s)
  | some m, true => keepPairB m (runs s)

/-- Modelled from the spec: the Raw Tokenizer split of the external
qutebrowser.misc.split module (not under src/), the shell-like splitter
honoring the keep-separators mode.  On quote-free input it tokenizes on
whitespace exactly like the unbounded simple splitter, which is how it is
modelled; no input considered here contains quotes. -/
def split_split (s : Str) (keep : Bool) : List Str := simple_split s keep none

/-- Per-command metadata from the command registry (objects.commands):
the registered name, cmd.maxsplit, cmd.no_cmd_split and
cmd.flags_with_args. -/
structure Command where
  name : Str
  maxsplit : Option Nat
  no_cmd_split : Bool
  flags_with_args : List Str
deriving DecidableEq

/-- The result of parsing a commandline (class ParseResult): the resolved
command (absent on fallback), its arguments (absent on fallback), and the
display tokens (field cmdline). -/
structure ParseResult where
  cmd : Option Command
  args : Option (List Str)
  cmdline : List Str
deriving DecidableEq

/-- The errors the parser can signal.  In the source both empty input and
an unknown command raise cmdexc.NoSuchCommandError, distinguished by their
message ("No command given" versus "...: no such command"); they are kept
distinct here the way the messages distinguish them.  attributeError
models the Python AttributeError raised by reading .no_cmd_split off
None. -/
inductive CmdError where
  | emptyInput : CmdError
  | unknownCommand : Str → CmdError
  | attributeError : CmdError
deriving DecidableEq

/-- Membership of a string in a list of strings (Python: arg in set). -/
def strMem (s : Str) : List Str → Bool
  | [] => false
  | t :: ts => s == t || strMem s ts

/-- Dictionary lookup in the alias map (Python: aliases[key]). -/
def lookupStr (k : Str) : List (Str × Str) → Option Str
  | [] => none
  | (a, v) :: rest => if a = k then some v else lookupStr k rest

/-- Dictionary lookup in the command registry
(Python: objects.commands[cmdstr]). -/
def findCmd (s : Str) : List Command → Option Command
  | [] => none
  | c :: cs => if c.name = s then some c else findCmd s cs

/-- Python text.split(maxsplit=1): drop leading whitespace, take the first
whitespace-delimited word, drop the whitespace after it, and keep the rest
verbatim; at most two parts result. -/
def splitMax1 (s : Str) : List Str :=
  let s1 := s.dropWhile pyIsSpace
  if s1 = [] then []
  else
    let hd := s1.takeWhile (fun c => !pyIsSpace c)
    let rest := (s1.dropWhile (fun c => !pyIsSpace c)).dropWhile pyIsSpace
    if rest = [] then [hd] else [hd, rest]

/-- CommandParser._get_alias: rewrite the leading word of the text if it is
a key of the alias map, else return the default.  The unreachable case of
whitespace-only text (where Python would raise IndexError; every call site
guards against it) returns the default. -/
def _get_alias (aliases : List (Str × Str)) (text deflt : Str) : Str :=
  match splitMax1 (pyStrip text) with
  | [] => deflt
  | hd :: tail =>
    match lookupStr hd aliases with
    | none => deflt
    | some exp =>
      let new_cmd :=
        match tail with
        | [] => exp
        | rest :: _ => exp ++ [' '] ++ rest
      if endsWithSpace text then new_cmd ++ [' '] else new_cmd

/-- Stable insertion by ascending length (insert before the first strictly
or equally long element), modelling one step of Python sorted(key=len). -/
def insertLen (x : Str) : List Str → List Str
  | [] => [x]
  | y :: ys => if x.length ≤ y.length then x :: y :: ys else y :: insertLen x ys

/-- Python sorted(names, key=len): a stable sort by ascending length. -/
def sortByLen : List Str → List Str
  | [] => []
  | x :: xs => insertLen x (sortByLen xs)

/-- Python prefix-of-list test used by the substring test. -/
def listPrefixOf : Str → Str → Bool
  | [], _ => true
  | _ :: _, [] => false
  | c :: cs, d :: ds => c == d && listPrefixOf cs ds

/-- Python substring containment (needle in hay). -/
def isSubstr (needle : Str) : Str → Bool
  | [] => needle.isEmpty
  | c :: rest => listPrefixOf needle (c :: rest) || isSubstr needle rest

/-- CommandParser._completion_match: the registered names sorted stably by
ascending length and filtered to those containing the typed token as a
substring; a unique match replaces the token, the first match replaces it
when best is set, and otherwise the token is returned unmodified. -/
def _completion_match (commands : List Command) (cmdstr : Str) (best : Bool) : Str :=
  match (sortByLen (commands.map Command.name)).filter (fun c => isSubstr cmdstr c) with
  | [m] => m
  | m :: _ :: _ => if best then m else cmdstr
  | [] => cmdstr

/-- The scan of CommandParser._split_args over the first unbounded split:
walk the tokens; a stripped token starting with a dash is a flag (counting
those listed in flags_with_args); at the first non-flag token return its
index and the running flag-argument count; return none if every token is a
flag. -/
def scanArgs (flags : List Str) : List Str → Nat → Nat → Option (Nat × Nat)
  | [], _, _ => none
  | a :: rest, i, fac =>
    let a2 := pyStrip a
    if a2.head? == some '-' then
      scanArgs flags rest (i + 1) (if strMem a2 flags then fac + 1 else fac)
    else some (i, fac)

/-- CommandParser._split_args: empty argument strings yield no tokens;
without cmd.maxsplit the whole string is tokenized; with it, the string is
split once without a bound, scanned for the first non-flag token, and
re-split with bound index + maxsplit + flag-argument count (or returned
as the unbounded split when every token is a flag). -/
def _split_args (cmd : Command) (argstr : Str) (keep : Bool) : List Str :=
  if argstr = [] then []
  else
    match cmd.maxsplit with
    | none => split_split argstr keep
    | some ms =>
      match scanArgs cmd.flags_with_args (simple_split argstr keep none) 0 0 with
      | some iv => simple_split argstr keep (some (iv.1 + ms + iv.2))
      | none => simple_split argstr keep none

/-- The local cmdstr of CommandParser.parse after its rewriting step: the
first whitespace-delimited token of the text, rewritten by partial
matching when that is enabled. -/
def cmdTok (commands : List Command) (partial_match : Bool) (text : Str)
    (best_match : Bool) : Str :=
  if partial_match then _completion_match commands (partitionSpace text).1 best_match
  else (partitionSpace text).1

/-- CommandParser.parse: split the text into command token, separator and
argument string at the first space; an empty token without fallback is an
error; rewrite the token by partial matching when enabled; look the token
up in the registry; on failure either fail or fall back to a raw
tokenization of the whole text; on success split the arguments and
assemble the display tokens. -/
def parse (commands : List Command) (partial_match : Bool) (text : Str)
    (fallback keep best_match : Bool) : Except CmdError ParseResult :=
  if (partitionSpace text).1 = [] ∧ fallback = false then .error .emptyInput
  else
    match findCmd (cmdTok commands partial_match text best_match) commands with
    | none =>
      if fallback = false then
        .error (.unknownCommand (cmdTok commands partial_match text best_match))
      else .ok ⟨none, none, split_split text keep⟩
    | some cmd =>
      .ok ⟨some cmd, some (_split_args cmd (partitionSpace text).2.2 keep),
        if keep then
          match _split_args cmd (partitionSpace text).2.2 keep with
          | [] => [cmdTok commands partial_match text best_match, (partitionSpace text).2.1]
          | a :: rest =>
            cmdTok commands partial_match text best_match ::
              ((partitionSpace text).2.1 ++ a) :: rest
        else cmdTok commands partial_match text best_match ::
          _split_args cmd (partitionSpace text).2.2 keep⟩

/-- Does the text contain the two-character chaining delimiter. -/
def hasSS : Str → Bool
  | ';' :: ';' :: _ => true
  | _ :: rest => hasSS rest
  | [] => false

/-- Python text.split on the literal two-character delimiter, left to
right, non-overlapping; the accumulator holds the current piece
reversed. -/
def splitSSGo : Str → Str → List Str
  | [], acc => [acc.reverse]
  | ';' :: ';' :: rest, acc => acc.reverse :: splitSSGo rest []
  | c :: rest, acc => splitSSGo rest (c :: acc)

/-- Python text.split(two-character delimiter). -/
def pySplitSS (s : Str) : List Str := splitSSGo s []

/-- The preprocessing of CommandParser._parse_all_gen:
text.strip().lstrip(colon).strip(). -/
def preprocessed (text : Str) : Str :=
  pyStrip ((pyStrip text).dropWhile (fun c => c == ':'))

/-- The alias step of CommandParser._parse_all_gen: the alias map is
consulted only when it is non-empty, with the text itself as default. -/
def aliased (aliases : List (Str × Str)) (t : Str) : Str :=
  if aliases.isEmpty then t else _get_alias aliases t t

/-- The sub-command selection of CommandParser._parse_all_gen: when the
chaining delimiter occurs, parse the piece before its first occurrence
speculatively and read no_cmd_split off the resulting command (an absent
command makes this an attribute error); a no-split command keeps the whole
text as the only sub-text, otherwise the text is split on every delimiter
occurrence and each piece stripped. -/
def _sub_texts (commands : List Command) (partial_match : Bool) (text : Str)
    (fallback keep best_match : Bool) : Except CmdError (List Str) :=
  if hasSS text then
    match parse commands partial_match ((pySplitSS text).headD []) fallback keep best_match with
    | .error e => .error e
    | .ok result =>
      match result.cmd with
      | none => .error .attributeError
      | some c => .ok (if c.no_cmd_split then [text] else (pySplitSS text).map pyStrip)
  else .ok [text]

/-- Forcing the generator: parse the sub-texts left to right, collecting
the results; an exception raised by any sub-parse propagates and aborts
the collection, exactly as an exception escapes list(generator). -/
def parseList (f : Str → Except CmdError ParseResult) :
    List Str → Except CmdError (List ParseResult)
  | [] => .ok []
  | t :: ts =>
    match f t with
    | .error e => .error e
    | .ok r =>
      match parseList f ts with
      | .error e => .error e
      | .ok rs => .ok (r :: rs)

/-- CommandParser._parse_all_gen: strip the text and the leading colon
marker, fail on emptiness, apply the alias map, choose the sub-texts and
parse each of them. -/
def _parse_all_gen (commands : List Command) (partial_match : Bool) (text : Str)
    (aliases : List (Str × Str)) (fallback keep best_match : Bool) :
    Except CmdError (List ParseResult) :=
  let t1 := preprocessed text
  if t1 = [] then .error .emptyInput
  else
    let t2 := aliased aliases t1
    match _sub_texts commands partial_match t2 fallback keep best_match with
    | .error e => .error e
    | .ok subs => parseList (fun sub => parse commands partial_match sub fallback keep best_match) subs

/-- CommandParser.parse_all: the materializing wrapper over
_parse_all_gen. -/
def parse_all (commands : List Command) (partial_match : Bool) (text : Str)
    (aliases : List (Str × Str)) (fallback keep best_match : Bool) :
    Except CmdError (List ParseResult) :=
  _parse_all_gen commands partial_match text aliases fallback keep best_match

/-- Joining display tokens with single spaces (the operation the round-trip
sentence of the spec describes). -/
def joinSpace : List Str → Str
  | [] => []
  | [t] => t
  | t :: ts => t ++ [' '] ++ joinSpace ts

/-- The registered names containing the token as a substring, in registry
order (the candidate set the matcher works from). -/
def matchesU (commands : List Command) (tok : Str) : List Str :=
  (commands.map Command.name).filter (fun n => isSubstr tok n)

/-- Lexicographic comparison of strings by character code. -/
def lexLt : Str → Str → Bool
  | [], [] => false
  | [], _ :: _ => true
  | _ :: _, [] => false
  | c :: cs, d :: ds => if c = d then lexLt cs ds else decide (c.toNat < d.toNat)

/-- Insertion into a list ordered by ascending length, ties broken
lexicographically. -/
def specInsert (x : Str) : List Str → List Str
  | [] => [x]
  | y :: ys =>
    if x.length < y.length || (x.length == y.length && lexLt x y) then x :: y :: ys
    else y :: specInsert x ys

/-- Sorting by ascending length with ties broken lexicographically. -/
def specSortLenLex : List Str → List Str
  | [] => []
  | x :: xs => specInsert x (specSortLenLex xs)

/-- The command matcher as the claim words it, for comparison with the
implementation: candidate names ordered by ascending length with ties
broken by natural lexical order; a unique match is returned, the shortest
match is returned under preferBest, and the token otherwise. -/
def specCompletionMatch (commands : List Command) (cmdstr : Str) (best : Bool) : Str :=
  match (specSortLenLex (commands.map Command.name)).filter (fun c => isSubstr cmdstr c) with
  | [m] => m
  | m :: _ :: _ => if best then m else cmdstr
  | [] => cmdstr

/-- A registered command named open splitting all of its arguments. -/
def openCmd : Command := ⟨"open".data, none, false, []⟩

/-- A registered command named open declaring no_cmd_split. -/
def openNS : Command := ⟨"open".data, none, true, []⟩

/-- A registered command named open-file. -/
def openFileCmd : Command := ⟨"open-file".data, none, false, []⟩

/-- A command of length-two name registered first. -/
def zzCmd : Command := ⟨"zz".data, none, false, []⟩

/-- A command of length-two name registered second, lexically smaller. -/
def azCmd : Command := ⟨"az".data, none, false, []⟩

/-- A bounded-split command with maxsplit 2 whose -v flag takes an
argument. -/
def cmdMax2 : Command := ⟨"c".data, some 2, false, ["-v".data]⟩

/-- A bounded-split command with maxsplit 0 whose -v flag takes an
argument. -/
def cmdMax0 : Command := ⟨"c".data, some 0, false, ["-v".data]⟩

/-- The argument string of the bounded-split example. -/
def arg3 : Str := "--foo -v bar baz qux".data

theorem partitionSpace_concat : ∀ s : Str,
    (partitionSpace s).1 ++ (partitionSpace s).2.1 ++ (partitionSpace s).2.2 = s
  | [] => rfl
  | c :: rest => by
    simp only [partitionSpace]
    split
    · simp [*]
    · simp [partitionSpace_concat rest]

theorem runsGo_flatten (s : Str) : ∀ acc : Str, (runsGo s acc).flatten = acc.reverse ++ s := by
  induction s with
  | nil => intro acc; cases acc <;> simp [runsGo]
  | cons c cs ih =>
    intro acc
    cases acc with
    | nil => simpa using ih [c]
    | cons a as =>
      simp only [runsGo]
      split
      · rw [ih (c :: a :: as)]; simp
      · rw [List.flatten_cons, ih [c]]; simp

theorem runs_flatten (s : Str) : (runs s).flatten = s := by
  simpa using runsGo_flatten s []

theorem keepPair_flatten : ∀ L : List Str, (keepPair L).flatten = L.flatten
  | [] => rfl
  | [r] => by simp [keepPair]
  | r :: s :: rest => by
    simp only [keepPair]
    split
    · simp [keepPair_flatten (s :: rest)]
    · simp [keepPair_flatten rest]

theorem keepPairB_flatten : ∀ (m : Nat) (L : List Str), (keepPairB m L).flatten = L.flatten
  | m, [] => by cases m <;> simp [keepPairB]
  | 0, x :: xs => by simp [keepPairB]
  | _ + 1, [r] => by simp [keepPairB]
  | m + 1, r :: s :: rest => by
    simp only [keepPairB]
    split
    · simp [keepPairB_flatten m (s :: rest)]
    · simp [keepPairB_flatten m rest]

theorem runs_ne_nil {s : Str} (h : s ≠ []) : runs s ≠ [] := by
  intro hr
  apply h
  have h2 := runs_flatten s
  rw [hr] at h2
  simpa using h2.symm

theorem keepPair_ne_nil : ∀ {L : List Str}, L ≠ [] → keepPair L ≠ []
  | [], h => absurd rfl h
  | [r], _ => by simp [keepPair]
  | r :: s :: rest, _ => by
    simp only [keepPair]
    split <;> simp

theorem keepPairB_ne_nil : ∀ (m : Nat) {L : List Str}, L ≠ [] → keepPairB m L ≠ []
  | m, [], h => absurd rfl h
  | 0, x :: xs, _ => by simp [keepPairB]
  | _ + 1, [r], _ => by simp [keepPairB]
  | m + 1, r :: s :: rest, _ => by
    simp only [keepPairB]
    split <;> simp

theorem simple_split_keep_flatten (s : Str) (m : Option Nat) :
    (simple_split s true m).flatten = s := by
  cases m with
  | none => simp [simple_split, keepPair_flatten, runs_flatten]
  | some m => simp [simple_split, keepPairB_flatten, runs_flatten]

theorem simple_split_keep_ne_nil {s : Str} (h : s ≠ []) (m : Option Nat) :
    simple_split s true m ≠ [] := by
  cases m with
  | none => exact keepPair_ne_nil (runs_ne_nil h)
  | some m => exact keepPairB_ne_nil m (runs_ne_nil h)

theorem split_args_keep_flatten (cmd : Command) (argstr : Str) :
    (_split_args cmd argstr true).flatten = argstr := by
  rw [_split_args]
  split
  · simp [*]
  · split
    · exact simple_split_keep_flatten argstr none
    · split
      · exact simple_split_keep_flatten argstr _
      · exact simple_split_keep_flatten argstr none

theorem split_args_keep_ne_nil (cmd : Command) {argstr : Str} (h : argstr ≠ []) :
    _split_args cmd argstr true ≠ [] := by
  rw [_split_args]
  split
  · exact absurd (by assumption) h
  · split
    · exact simple_split_keep_ne_nil h none
    · split
      · exact simple_split_keep_ne_nil h _
      · exact simple_split_keep_ne_nil h none

theorem parseList_error_of_mem (f : Str → Except CmdError ParseResult) :
    ∀ (S1 : List Str) (t : Str) (S2 : List Str) (e : CmdError),
      (∀ s ∈ S1, ∃ r, f s = .ok r) → f t = .error e →
      parseList f (S1 ++ t :: S2) = .error e
  | [], t, S2, e, _, ht => by simp [parseList, ht]
  | s :: S1, t, S2, e, hok, ht => by
    obtain ⟨r, hr⟩ := hok s (by simp)
    have htail := parseList_error_of_mem f S1 t S2 e (fun x hx => hok x (by simp [hx])) ht
    show parseList f (s :: (S1 ++ t :: S2)) = Except.error e
    simp only [parseList, hr, htail]

theorem insertLen_perm (x : Str) : ∀ l : List Str, List.Perm (insertLen x l) (x :: l)
  | [] => List.Perm.refl _
  | y :: ys => by
    simp only [insertLen]
    split
    · exact List.Perm.refl _
    · exact ((insertLen_perm x ys).cons y).trans (List.Perm.swap x y ys)

theorem sortByLen_perm : ∀ l : List Str, List.Perm (sortByLen l) l
  | [] => List.Perm.refl _
  | x :: xs => (insertLen_perm x (sortByLen xs)).trans ((sortByLen_perm xs).cons x)

theorem insertLen_sorted (x : Str) : ∀ {l : List Str},
    l.Pairwise (fun a b => a.length ≤ b.length) →
    (insertLen x l).Pairwise (fun a b => a.length ≤ b.length)
  | [], _ => by simp [insertLen]
  | y :: ys, h => by
    have h2 := List.pairwise_cons.mp h
    simp only [insertLen]
    split
    · rename_i hxy
      refine List.Pairwise.cons ?_ h
      intro z hz
      cases List.mem_cons.mp hz with
      | inl hzy => rw [hzy]; exact hxy
      | inr hzys => exact le_trans hxy (h2.1 z hzys)
    · rename_i hxy
      refine List.Pairwise.cons ?_ (insertLen_sorted x h2.2)
      intro z hz
      cases List.mem_cons.mp ((insertLen_perm x ys).mem_iff.mp hz) with
      | inl hzx => rw [hzx]; omega
      | inr hzys => exact h2.1 z hzys

theorem sortByLen_sorted : ∀ l : List Str,
    (sortByLen l).Pairwise (fun a b => a.length ≤ b.length)
  | [] => List.Pairwise.nil
  | x :: xs => insertLen_sorted x (sortByLen_sorted xs)

theorem matches_perm (commands : List Command) (tok : Str) :
    List.Perm ((sortByLen (commands.map Command.name)).filter (fun c => isSubstr tok c))
      (matchesU commands tok) :=
  (sortByLen_perm _).filter _

theorem matches_sorted (commands : List Command) (tok : Str) :
    ((sortByLen (commands.map Command.name)).filter (fun c => isSubstr tok c)).Pairwise
      (fun a b => a.length ≤ b.length) :=
  List.Pairwise.sublist (List.filter_sublist _) (sortByLen_sorted _)

/-- C3 counterexample: with maxSplitCount 2, the bounded split of
"--foo -v bar baz qux" where -v takes an argument computes the boundary
2 + 2 + 1 = 5, which is not below the token count, so the result is the
full five-token split and not the four tokens the claim states. -/
theorem c3_counterexample :
    _split_args cmdMax2 arg3 false =
      ["--foo".data, "-v".data, "bar".data, "baz".data, "qux".data] ∧
    ["--foo".data, "-v".data, "bar".data, "baz".data, "qux".data] ≠
      ["--foo".data, "-v".data, "bar".data, "baz qux".data] :=
  ⟨rfl, by decide⟩

/-- C3 (amended): with maxSplitCount 2 the boundary 2 + 2 + 1 = 5 reaches
past the last token, so "--foo -v bar baz qux" splits fully into five
tokens; the four-token result with "baz qux" joined arises with
maxSplitCount 0, whose boundary is 2 + 0 + 1 = 3: leading flags are
skipped when locating the first positional token, flags taking an
argument add to the re-split boundary, and everything past the boundary
is joined into one final token. -/
theorem c3_bounded_split :
    _split_args cmdMax2 arg3 false =
      ["--foo".data, "-v".data, "bar".data, "baz".data, "qux".data] ∧
    _split_args cmdMax0 arg3 false =
      ["--foo".data, "-v".data, "bar".data, "baz qux".data] :=
  ⟨rfl, rfl⟩

/-- C4: on compound input whose first segment has an unregistered command
token, parse_all with fallback=true does not produce per-sub-command
fallback results: the speculative parse of the first segment succeeds with
an absent command, the no-split check dereferences that absent command,
and the call fails with the attribute error, which is neither the
empty-input error nor an unknown-command error. -/
theorem c4_fallback_compound_crash :
    parse_all [openCmd] false ("bad foo ;; open x".data) [] true false false =
      .error .attributeError ∧
    CmdError.attributeError ≠ CmdError.emptyInput ∧
    ∀ s : Str, CmdError.attributeError ≠ CmdError.unknownCommand s :=
  ⟨rfl, by decide, fun _ h => CmdError.noConfusion h⟩

/-- C2 counterexample: parsing "open a ;; bad ;; open b" aborts at the
failing middle sub-command and parse_all propagates its unknown-command
error, producing no outcome for the final sub-command even though that
sub-command parses successfully on its own. -/
theorem c2_counterexample :
    parse_all [openCmd] false ("open a ;; bad ;; open b".data) [] false false false =
      .error (.unknownCommand "bad".data) ∧
    parse [openCmd] false ("open b".data) false false false =
      .ok ⟨some openCmd, some ["b".data], ["open".data, "b".data]⟩ :=
  ⟨rfl, rfl⟩

/-- C2 (amended): sub-command outcomes are not independent: when compound
input splits into sub-commands and the sub-commands before some failing
one all parse successfully, the failing sub-command's error propagates out
of parse_all and the outcomes of the later sub-commands are never
produced. -/
theorem c2_failure_aborts (commands : List Command) (pm : Bool) (text : Str)
    (aliases : List (Str × Str)) (fallback keep best : Bool) (c : Command)
    (r : ParseResult) (S1 : List Str) (t : Str) (S2 : List Str) (e : CmdError)
    (h1 : preprocessed text ≠ [])
    (h2 : hasSS (aliased aliases (preprocessed text)) = true)
    (h3 : parse commands pm ((pySplitSS (aliased aliases (preprocessed text))).headD [])
            fallback keep best = .ok r)
    (h4 : r.cmd = some c)
    (h5 : c.no_cmd_split = false)
    (h6 : (pySplitSS (aliased aliases (preprocessed text))).map pyStrip = S1 ++ t :: S2)
    (h7 : ∀ s ∈ S1, ∃ r2, parse commands pm s fallback keep best = .ok r2)
    (h8 : parse commands pm t fallback keep best = .error e) :
    parse_all commands pm text aliases fallback keep best = .error e := by
  rw [parse_all, _parse_all_gen]
  simp only [if_neg h1, _sub_texts, h2, if_true, h3, h4, h5, Bool.false_eq_true, if_false,
    ite_true, ite_false, h6]
  exact parseList_error_of_mem _ S1 t S2 e h7 h8

/-- C2 witness: a concrete instance of the abort behaviour, with the first
sub-command succeeding and the second failing. -/
theorem c2_witness :
    parse_all [openCmd] false ("open a ;; bad ;; open b".data) [] false false false =
      .error (.unknownCommand "bad".data) := by
  refine c2_failure_aborts [openCmd] false ("open a ;; bad ;; open b".data) [] false false false
    openCmd ⟨some openCmd, some ["a".data], ["open".data, "a".data]⟩
    ["open a".data] ("bad".data) ["open b".data] (.unknownCommand "bad".data)
    (by decide) rfl rfl rfl rfl (by decide) ?_ rfl
  intro s hs
  simp only [List.mem_singleton] at hs
  subst hs
  exact ⟨⟨some openCmd, some ["a".data], ["open".data, "a".data]⟩, rfl⟩

/-- C1 counterexample: the successful keep=true parse of "open foo" has
display tokens open and space-prefixed foo; joining them with single
spaces doubles the internal space, which differs from the original text
even after trimming; and with partial matching enabled, parsing "ope foo"
puts the completed token into the display tokens, so even their plain
concatenation differs from the typed text. -/
theorem c1_counterexample :
    (parse [openCmd] false ("open foo".data) false true false =
      .ok ⟨some openCmd, some ["foo".data], ["open".data, " foo".data]⟩) ∧
    pyStrip (joinSpace ["open".data, " foo".data]) ≠ pyStrip ("open foo".data) ∧
    (parse [openCmd] true ("ope foo".data) false true false =
      .ok ⟨some openCmd, some ["foo".data], ["open".data, " foo".data]⟩) ∧
    (["open".data, " foo".data] : List Str).flatten ≠ "ope foo".data :=
  ⟨rfl, by decide, rfl, by decide⟩

/-- C1 (amended): with partial matching disabled, every text that parses
successfully with keep=true is reproduced exactly by concatenating the
display tokens (joining with the empty separator rather than with single
spaces). -/
theorem c1_round_trip (commands : List Command) (text : Str) (fallback best : Bool)
    (r : ParseResult)
    (h : parse commands false text fallback true best = .ok r) :
    r.cmdline.flatten = text := by
  have hpart := partitionSpace_concat text
  have hct : cmdTok commands false text best = (partitionSpace text).1 := by
    simp [cmdTok]
  rw [parse] at h
  split at h
  · exact absurd h (by simp)
  · split at h
    · split at h
      · exact absurd h (by simp)
      · injection h with h2
        rw [← h2]
        exact simple_split_keep_flatten text none
    · rename_i c0 hfind
      injection h with h2
      subst h2
      dsimp only
      rw [if_pos (rfl : (true : Bool) = true)]
      split
      · rename_i hargs
        have hargstr : (partitionSpace text).2.2 = [] := by
          by_contra hne
          exact split_args_keep_ne_nil _ hne hargs
        rw [hargstr] at hpart
        simpa [hct] using hpart
      · rename_i a rest hargs
        have hsa := split_args_keep_flatten c0 (partitionSpace text).2.2
        rw [hargs] at hsa
        simp only [List.flatten_cons] at hsa ⊢
        rw [← hsa] at hpart
        simpa [hct, List.append_assoc] using hpart

/-- C1 witness: the concatenation round-trip at the concrete keep=true
parse of "open foo". -/
theorem c1_witness :
    (⟨some openCmd, some ["foo".data],
      ["open".data, " foo".data]⟩ : ParseResult).cmdline.flatten = "open foo".data :=
  c1_round_trip [openCmd] ("open foo".data) false false
    ⟨some openCmd, some ["foo".data], ["open".data, " foo".data]⟩ rfl

/-- C5: compound splitting honours no_cmd_split: concretely, with open
declared no_cmd_split, "open foo ;; bar" parses as one result whose
arguments are foo, the literal delimiter and bar; in general, when the
delimiter occurs in the processed text and its first segment parses to a
command declaring no_cmd_split, the entire text is parsed as one single
command, and when that command does not declare it, the text is split on
every delimiter occurrence, each piece whitespace-stripped and parsed in
left-to-right order. -/
theorem c5_no_cmd_split :
    (parse_all [openNS] false ("open foo ;; bar".data) [] false false false =
      .ok [⟨some openNS, some ["foo".data, ";;".data, "bar".data],
            ["open".data, "foo".data, ";;".data, "bar".data]⟩]) ∧
    (∀ (commands : List Command) (pm : Bool) (text : Str) (aliases : List (Str × Str))
        (fallback keep best : Bool) (c : Command) (r : ParseResult),
      preprocessed text ≠ [] →
      hasSS (aliased aliases (preprocessed text)) = true →
      parse commands pm ((pySplitSS (aliased aliases (preprocessed text))).headD [])
          fallback keep best = .ok r →
      r.cmd = some c →
      c.no_cmd_split = true →
      parse_all commands pm text aliases fallback keep best =
        (parse commands pm (aliased aliases (preprocessed text)) fallback keep best).map
          (fun x => [x])) ∧
    (∀ (commands : List Command) (pm : Bool) (text : Str) (aliases : List (Str × Str))
        (fallback keep best : Bool) (c : Command) (r : ParseResult),
      preprocessed text ≠ [] →
      hasSS (aliased aliases (preprocessed text)) = true →
      parse commands pm ((pySplitSS (aliased aliases (preprocessed text))).headD [])
          fallback keep best = .ok r →
      r.cmd = some c →
      c.no_cmd_split = false →
      parse_all commands pm text aliases fallback keep best =
        parseList (fun sub => parse commands pm sub fallback keep best)
          ((pySplitSS (aliased aliases (preprocessed text))).map pyStrip)) := by
  refine ⟨rfl, ?_, ?_⟩
  · intro commands pm text aliases fallback keep best c r h1 h2 h3 h4 h5
    rw [parse_all, _parse_all_gen]
    simp only [if_neg h1, _sub_texts, h2, h3, h4, h5, ite_true, if_true]
    cases hp : parse commands pm (aliased aliases (preprocessed text)) fallback keep best <;>
      simp [parseList, Except.map, hp]
  · intro commands pm text aliases fallback keep best c r h1 h2 h3 h4 h5
    rw [parse_all, _parse_all_gen]
    simp only [if_neg h1, _sub_texts, h2, h3, h4, h5, Bool.false_eq_true, if_false,
      ite_true, ite_false, if_true]

/-- C5 witness: the two universal clauses applied to concrete registries,
once with a no-split open and once with a splitting open. -/
theorem c5_witness :
    parse_all [openNS] false ("open x ;; y".data) [] false false false =
      (parse [openNS] false (aliased [] (preprocessed ("open x ;; y".data)))
          false false false).map (fun x => [x]) ∧
    parse_all [openCmd] false ("open a ;; open b".data) [] false false false =
      parseList (fun sub => parse [openCmd] false sub false false false)
        ((pySplitSS (aliased [] (preprocessed ("open a ;; open b".data)))).map pyStrip) := by
  constructor
  · exact c5_no_cmd_split.2.1 [openNS] false ("open x ;; y".data) [] false false false openNS
      ⟨some openNS, some ["x".data], ["open".data, "x".data]⟩ (by decide) rfl rfl rfl rfl
  · exact c5_no_cmd_split.2.2 [openCmd] false ("open a ;; open b".data) [] false false false
      openCmd ⟨some openCmd, some ["a".data], ["open".data, "a".data]⟩
      (by decide) rfl rfl rfl rfl

/-- C7: when the possibly partial-matched command token is not in the
registry, parse with fallback=true returns a successful result with
absent command and arguments whose display tokens are the raw tokenization
of the entire original text honoring keep, and parse with fallback=false
(given a non-empty command token) fails with the unknown-command error
carrying the attempted token. -/
theorem c7_fallback_vs_unknown (commands : List Command) (pm : Bool) (text : Str)
    (keep best : Bool)
    (h : findCmd (cmdTok commands pm text best) commands = none) :
    parse commands pm text true keep best = .ok ⟨none, none, split_split text keep⟩ ∧
    ((partitionSpace text).1 ≠ [] →
      parse commands pm text false keep best =
        .error (.unknownCommand (cmdTok commands pm text best))) := by
  constructor
  · rw [parse, if_neg (by simp), h]
    rfl
  · intro hne
    rw [parse, if_neg (by simp [hne]), h]
    rfl

/-- C7 witness: the unregistered token notacommand with one registered
command, in fallback and in strict mode. -/
theorem c7_witness :
    parse [openCmd] false ("notacommand arg".data) true false false =
      .ok ⟨none, none, split_split ("notacommand arg".data) false⟩ ∧
    parse [openCmd] false ("notacommand arg".data) false false false =
      .error (.unknownCommand "notacommand".data) := by
  have h := c7_fallback_vs_unknown [openCmd] false ("notacommand arg".data) false false
    (by decide)
  exact ⟨h.1, h.2 (by decide)⟩

/-- C9 counterexample: parsing the empty text with fallback=true succeeds
with an absent command and an empty display-token list, so display tokens
are not always non-empty for non-error results. -/
theorem c9_counterexample :
    parse [openCmd] false ("".data) true false false = .ok ⟨none, none, []⟩ ∧
    ¬ (∀ r : ParseResult, parse [openCmd] false ("".data) true false false = .ok r →
        r.cmdline ≠ []) :=
  ⟨rfl, fun hall => hall ⟨none, none, []⟩ rfl rfl⟩

/-- C9 (amended): every successful parse result satisfies: an absent
command forces absent arguments; a present command forces non-empty
display tokens; and display tokens can only be empty for a fallback result
whose raw tokenization of the text is itself empty. -/
theorem c9_result_invariant (commands : List Command) (pm : Bool) (text : Str)
    (fallback keep best : Bool) (r : ParseResult)
    (h : parse commands pm text fallback keep best = .ok r) :
    (r.cmd = none → r.args = none) ∧
    (r.cmd ≠ none → r.cmdline ≠ []) ∧
    (r.cmdline = [] → r.cmd = none ∧ r.args = none ∧ split_split text keep = []) := by
  rw [parse] at h
  split at h
  · exact absurd h (by simp)
  · split at h
    · split at h
      · exact absurd h (by simp)
      · injection h with h2
        subst h2
        exact ⟨fun _ => rfl, fun hc => absurd rfl hc, fun h3 => ⟨rfl, rfl, h3⟩⟩
    · injection h with h2
      subst h2
      refine ⟨fun hc => absurd hc (by simp), fun _ => ?_, fun h3 => absurd h3 ?_⟩
      all_goals
        dsimp only
        split
        · split <;> simp
        · simp

/-- C9 witness: the invariant applied to the successful parse of
"open foo": the command is present, so the display tokens are
non-empty. -/
theorem c9_witness : (["open".data, "foo".data] : List Str) ≠ [] :=
  (c9_result_invariant [openCmd] false ("open foo".data) false false false
      ⟨some openCmd, some ["foo".data], ["open".data, "foo".data]⟩ rfl).2.1 (by simp)

/-- C10: the compound entry point fails with the empty-input error on
every text that is empty after stripping whitespace and the leading colon
marker, in particular on the empty text, on blanks only and on a lone
colon; and the single-command parse without fallback fails with the
empty-input error whenever the first whitespace-delimited token is
empty. -/
theorem c10_empty_input (commands : List Command) (pm : Bool)
    (aliases : List (Str × Str)) (fallback keep best : Bool) :
    (∀ text : Str, preprocessed text = [] →
      parse_all commands pm text aliases fallback keep best = .error .emptyInput) ∧
    parse_all commands pm ("".data) aliases fallback keep best = .error .emptyInput ∧
    parse_all commands pm ("   ".data) aliases fallback keep best = .error .emptyInput ∧
    parse_all commands pm (":".data) aliases fallback keep best = .error .emptyInput ∧
    (∀ text : Str, (partitionSpace text).1 = [] →
      parse commands pm text false keep best = .error .emptyInput) := by
  have hmain : ∀ text : Str, preprocessed text = [] →
      parse_all commands pm text aliases fallback keep best = .error .emptyInput := by
    intro text ht
    rw [parse_all, _parse_all_gen]
    simp [ht]
  refine ⟨hmain, hmain _ (by decide), hmain _ (by decide), hmain _ (by decide), ?_⟩
  intro text ht
  rw [parse]
  simp [ht]

/-- C10 witness: the lone colon at the compound entry point and a text
with an empty first token at the single-command parse. -/
theorem c10_witness :
    parse_all [openCmd] false (":".data) [] false false false = .error .emptyInput ∧
    parse [openCmd] false (" x".data) false false false = .error .emptyInput := by
  have h := c10_empty_input [openCmd] false [] false false false
  exact ⟨h.2.2.2.1, h.2.2.2.2 (" x".data) (by decide)⟩

/-- C6 counterexample: with the equal-length names zz and az registered in
that order, the matcher breaks the length tie by registry order and
returns zz under preferBest, while the ordering the claim describes (ties
broken by natural lexical order) would return az. -/
theorem c6_counterexample :
    _completion_match [zzCmd, azCmd] ("z".data) true = "zz".data ∧
    specCompletionMatch [zzCmd, azCmd] ("z".data) true = "az".data ∧
    ("zz".data : Str) ≠ "az".data :=
  ⟨rfl, rfl, by decide⟩

/-- C6 (amended): the matcher computes the registered names containing the
typed token as a substring, ordered by ascending name length with ties
broken by the registry's original order (the sort is stable), not by
lexical order; it returns the unique match if exactly one exists, a
shortest match (the first in that ordering) if several exist and
preferBest is set, and the input token unchanged when there are zero
matches or several matches without preferBest. -/
theorem c6_matcher (commands : List Command) (tok : Str) :
    (matchesU commands tok = [] → ∀ best, _completion_match commands tok best = tok) ∧
    (∀ x, matchesU commands tok = [x] → ∀ best, _completion_match commands tok best = x) ∧
    (2 ≤ (matchesU commands tok).length →
      _completion_match commands tok false = tok ∧
      _completion_match commands tok true ∈ matchesU commands tok ∧
      ∀ y ∈ matchesU commands tok, (_completion_match commands tok true).length ≤ y.length) := by
  have hperm := matches_perm commands tok
  have hsort := matches_sorted commands tok
  set M := (sortByLen (commands.map Command.name)).filter (fun c => isSubstr tok c) with hMdef
  refine ⟨?_, ?_, ?_⟩
  · intro hU best
    have hM : M = [] := by
      have hp := hperm
      rw [hU] at hp
      exact hp.eq_nil
    rw [_completion_match, ← hMdef, hM]
  · intro x hU best
    have hM : M = [x] := by
      have hp := hperm
      rw [hU] at hp
      exact List.perm_singleton.mp hp
    rw [_completion_match, ← hMdef, hM]
  · intro hlen
    have hlenM : 2 ≤ M.length := by rw [hperm.length_eq]; exact hlen
    cases hM : M with
    | nil => rw [hM] at hlenM; simp at hlenM
    | cons m1 M1 =>
      cases hM1 : M1 with
      | nil => rw [hM, hM1] at hlenM; simp at hlenM
      | cons m2 M2 =>
        have hfalse : _completion_match commands tok false = tok := by
          rw [_completion_match, ← hMdef, hM, hM1]
          rfl
        have htrue : _completion_match commands tok true = m1 := by
          rw [_completion_match, ← hMdef, hM, hM1]
          rfl
        refine ⟨hfalse, ?_, ?_⟩
        · rw [htrue]
          exact hperm.mem_iff.mp (by rw [hM]; exact List.mem_cons_self _ _)
        · intro y hy
          rw [htrue]
          have hyM : y ∈ M := hperm.symm.mem_iff.mp hy
          rw [hM] at hyM
          have hsM := hsort
          rw [hM, hM1] at hsM
          rcases List.mem_cons.mp hyM with h1 | h2
          · rw [h1]
          · rw [hM1] at h2
            exact (List.pairwise_cons.mp hsM).1 y h2

/-- C6 witness: the amended matcher properties at a concrete registry of
open and open-file: zero matches leave zzz unchanged, the unique match for
n-f resolves to open-file, the ambiguous token open is left unchanged
without preferBest, and with preferBest the result is one of the
matches. -/
theorem c6_witness :
    _completion_match [openCmd, openFileCmd] ("zzz".data) false = "zzz".data ∧
    _completion_match [openCmd, openFileCmd] ("n-f".data) true = "open-file".data ∧
    _completion_match [openCmd, openFileCmd] ("open".data) false = "open".data ∧
    _completion_match [openCmd, openFileCmd] ("open".data) true ∈
      matchesU [openCmd, openFileCmd] ("open".data) := by
  refine ⟨(c6_matcher [openCmd, openFileCmd] ("zzz".data)).1 (by decide) false,
    (c6_matcher [openCmd, openFileCmd] ("n-f".data)).2.1 ("open-file".data) (by decide) true,
    ((c6_matcher [openCmd, openFileCmd] ("open".data)).2.2 (by decide)).1,
    ((c6_matcher [openCmd, openFileCmd] ("open".data)).2.2 (by decide)).2.1⟩

/-- C8 counterexample: for the alias a mapped to b, the input a followed
by a tab ends with whitespace, but the result b carries no trailing
whitespace at all: only a trailing space character is re-appended, so
trailing whitespace is not preserved in general. -/
theorem c8_counterexample :
    _get_alias [("a".data, "b".data)] ("a\t".data) ("a\t".data) = "b".data ∧
    ("a\t".data).getLast? = some '\t' ∧ pyIsSpace '\t' = true ∧
    ("b".data).getLast? = some 'b' ∧ pyIsSpace 'b' = false :=
  ⟨rfl, rfl, rfl, rfl, rfl⟩

/-- C8 (amended): if the first whitespace-delimited word of the text is
not a key of the alias map the text is returned unchanged; otherwise the
result is the mapped expansion followed by a single space and the rest of
the text (the expansion alone when the rest is empty), with one trailing
space appended exactly when the original text ends with a space character
(other trailing whitespace is dropped with the strip); the expansion is
applied exactly once, never recursively. -/
theorem c8_alias_resolution (aliases : List (Str × Str)) (text hd : Str) (tail : List Str)
    (hp : splitMax1 (pyStrip text) = hd :: tail) :
    (lookupStr hd aliases = none → _get_alias aliases text text = text) ∧
    (∀ e, lookupStr hd aliases = some e →
      _get_alias aliases text text =
        (match tail with
         | [] => e
         | rest :: _ => e ++ [' '] ++ rest) ++
        (if endsWithSpace text then [' '] else [])) := by
  constructor
  · intro hl
    simp only [_get_alias, hp, hl]
  · intro e hl
    simp only [_get_alias, hp, hl]
    cases tail with
    | nil =>
      by_cases hw : endsWithSpace text = true
      · simp [hw]
      · simp [hw]
    | cons r ts =>
      by_cases hw : endsWithSpace text = true
      · simp [hw]
      · simp [hw]

/-- C8 witness: a missed alias key leaves the text unchanged, and the
alias o expanding to open rewrites a text with one argument and a trailing
space, re-appending a single trailing space. -/
theorem c8_witness :
    _get_alias [("o".data, "open".data)] ("q x".data) ("q x".data) = "q x".data ∧
    _get_alias [("o".data, "open".data)] ("o x ".data) ("o x ".data) = "open x ".data := by
  constructor
  · exact (c8_alias_resolution [("o".data, "open".data)] ("q x".data) ("q".data) ["x".data]
      (by decide)).1 (by decide)
  · exact (c8_alias_resolution [("o".data, "open".data)] ("o x ".data) ("o".data) ["x".data]
      (by decide)).2 ("open".data) (by decide)

/-- C4 witness: the neither-of-the-two-named-errors conjunct instantiated
at the token of the failing example. -/
theorem c4_witness : CmdError.attributeError ≠ CmdError.unknownCommand "bad".data :=
  c4_fallback_compound_crash.2.2 ("bad".data)
